import Mathlib

/-!
Verification development for the `ee.Image` module of the earthengine-api
JavaScript client (`src/javascript/src/image.js`).

The module builds deferred-computation call graphs: every operation produces a
new graph node instead of computing anything locally.  We embed the JavaScript
runtime values that flow through this module as the inductive type `JSVal`, and
each function of the module as a Lean function over `JSVal`.  JavaScript
`throw` is embedded as `Except JSError`; error payloads are kept structured
(the offending value is carried in the error constructor) rather than as the
rendered message strings.
-/

set_option autoImplicit false

/--
A JavaScript value as seen by the `ee.Image` module:
  * `undef` — the JS `undefined` value (an absent optional argument);
  * `num`   — a JS number (the claims only need integer values);
  * `str`   — a JS string;
  * `arr`   — a JS array;
  * `node`  — an `ee.ComputedObject` instance: `name` is the class tag returned
    by its `name()` method (an `ee.Image` has tag `"Image"`), `func` the
    `ee.ApiFunction` name of its root call (if any), `args` its argument list
    (`some key` for a named dictionary entry as passed by `goog.base`/`_apply`,
    `none` for a positional argument as passed by `_call`), and `varName` its
    variable name;
  * `plainObj` — any other JS object (no promotion to a graph type exists).
-/
inductive JSVal where
  | undef : JSVal
  | num (n : Int) : JSVal
  | str (s : String) : JSVal
  | arr (xs : List JSVal) : JSVal
  | node (name : String) (func : Option String)
      (args : List (Option String × JSVal)) (varName : Option String) : JSVal
  | plainObj (tag : String) : JSVal
deriving Repr

/-- Structured embedding of the `throw Error(...)` sites of the module. -/
inductive JSError where
  /-- `Unrecognized argument type to convert to an Image: <v>` -/
  | unrecognizedSingle (v : JSVal) : JSError
  /-- `Unrecognized argument types to convert to an Image: <a, b>` -/
  | unrecognizedPair (a b : JSVal) : JSError
  /-- `The Image constructor takes at most 2 arguments (<n> given)` -/
  | tooManyArgs (n : Nat) : JSError
  /-- `Can not combine 0 images.` (thrown by `ee.Image.combine_`) -/
  | cantCombineZero : JSError
  /-- `Illegal argument to select(): <v>` -/
  | illegalSelectArg (v : JSVal) : JSError
deriving Repr

/-- `!goog.isDef(v)`: the value is the JS `undefined`. -/
def isUndef : JSVal → Bool
  | .undef => true
  | _ => false

/-- `v instanceof ee.Image`: a computed object whose class tag is `"Image"`. -/
def isImageNode : JSVal → Bool
  | .node nm _ _ _ => nm == "Image"
  | _ => false

/-- `ee.Types.isString(v)`. -/
def isString : JSVal → Bool
  | .str _ => true
  | _ => false

/-- `ee.Types.isNumber(v)`. -/
def isNumber : JSVal → Bool
  | .num _ => true
  | _ => false

/-- `v instanceof ee.ComputedObject`. -/
def isComputedObject : JSVal → Bool
  | .node _ _ _ _ => true
  | _ => false

/-- JavaScript truthiness for the values of our model. -/
def jsTruthy : JSVal → Bool
  | .undef => false
  | .num n => n != 0
  | .str s => s != ""
  | .arr _ => true
  | .node _ _ _ _ => true
  | .plainObj _ => true

/-- `ee.ApiFunction._call(op, v1, ..., vn)`: a call node with positional
arguments.  Every operation the module calls this way returns an Image, so the
resulting computed object carries the `"Image"` class tag. -/
def mk_call (op : String) (args : List JSVal) : JSVal :=
  .node "Image" (some op) (args.map (fun v => (none, v))) none

/-- `ee.ApiFunction._apply(op, argsDict)`: a call node with named arguments. -/
def mk_apply (op : String) (args : List (String × JSVal)) : JSVal :=
  .node "Image" (some op) (args.map (fun p => (some p.1, p.2))) none

/-- `new ee.Image(n)` for numeric `n`: the call node `Image.constant(value=n)`
(source line 56). -/
def constImage (n : Int) : JSVal :=
  .node "Image" (some "Image.constant") [(some "value", .num n)] none

/-- `new ee.Image(s)` for a string `s`: the call node `Image.load(id=s)`
(source line 60). -/
def loadImage (s : String) : JSVal :=
  .node "Image" (some "Image.load") [(some "id", .str s)] none

/-- `new ee.Image(s, v)`: the call node `Image.load(id=s, version=v)`
(source lines 86-89). -/
def loadVersion (s : String) (v : Int) : JSVal :=
  .node "Image" (some "Image.load") [(some "id", .str s), (some "version", .num v)] none

/-- `new ee.Image()`: the fully transparent image
`Image.mask(image=Image.constant(0), mask=Image.constant(0))`
(source lines 49-52; the two inner `new ee.Image(0)` calls are the numeric
constructor branch, i.e. `constImage 0`). -/
def emptyImage : JSVal :=
  .node "Image" (some "Image.mask")
    [(some "image", constImage 0), (some "mask", constImage 0)] none

/-- `ee.ApiFunction._call('Image.addBands', a, b)` (source line 304). -/
def addBandsCall (a b : JSVal) : JSVal :=
  mk_call "Image.addBands" [a, b]

/--
The single-argument branches of the `ee.Image` constructor other than the
array branch (source lines 41-43 and 48-80): the `instanceof ee.Image`
identity return, the `undefined` / numeric / string / computed-object
branches, and the final `throw`.  The array branch (which recurses) lives in
`eeImage1`; an array reaching this function is embedded as the constructor's
`throw`, but `eeImage1` never sends one here.
-/
def eeImageBase (v : JSVal) : Except JSError JSVal :=
  if isImageNode v then .ok v
  else match v with
  | .undef => .ok emptyImage
  | .num n => .ok (constImage n)
  | .str s => .ok (loadImage s)
  | .node nm f a vn =>
      if nm = "Array" then
        .ok (.node "Image" (some "Image.constant")
              [(some "value", .node nm f a vn)] none)
      else
        .ok (.node "Image" f a vn)
  | .arr xs => .error (JSError.unrecognizedSingle (.arr xs))
  | .plainObj t => .error (JSError.unrecognizedSingle (.plainObj t))

/--
The body of `ee.Image.combine_` with no rename list, as reached from the list
branch of the constructor (source lines 63-67 and 296-313): the inputs are the
already-wrapped `new ee.Image(elem)` results, so the re-wrap
`new ee.Image(images[0])` on line 302 only ever exercises the non-array
branches of the constructor, embedded by `eeImageBase`.  `combine_` below is
the general entry point, which re-enters the full constructor.
-/
def combineCore (imgs : List JSVal) : Except JSError JSVal :=
  match imgs with
  | [] => .error JSError.cantCombineZero
  | first :: rest =>
      (eeImageBase first).map (fun r0 => rest.foldl addBandsCall r0)

mutual

/-- The single-argument `ee.Image` constructor, `new ee.Image(v)`
(source lines 37-80). -/
def eeImage1 : JSVal → Except JSError JSVal
  | .arr xs => (eeImageList xs).bind combineCore
  | v => eeImageBase v

/-- `goog.array.map(opt_args, function(elem) { return new ee.Image(elem); })`
(source lines 63-67): wrap every element of a list as an Image. -/
def eeImageList : List JSVal → Except JSError (List JSVal)
  | [] => .ok []
  | x :: xs =>
      (eeImage1 x).bind (fun i => (eeImageList xs).map (fun rest => i :: rest))

end

/--
The full `ee.Image` constructor applied to its `arguments` array
(source lines 37-98).  The `opt_args instanceof ee.Image` identity return on
lines 41-43 fires before the arity dispatch, hence the leading guard on the
first argument.  The one-time `ee.Image.initialize()` side effect on line 45
does not touch the produced value; it is modelled separately by `bindApi`.
-/
def eeImage (arguments : List JSVal) : Except JSError JSVal :=
  if isImageNode (arguments.headD JSVal.undef) then
    .ok (arguments.headD JSVal.undef)
  else match arguments with
  | [] => .ok emptyImage
  | [a] => eeImage1 a
  | [a, b] =>
      match a, b with
      | .str s, .num n => .ok (loadVersion s n)
      | _, _ => .error (JSError.unrecognizedPair a b)
  | l => .error (JSError.tooManyArgs l.length)

/--
The element validation loop of `ee.Image.prototype.select` in the variadic
(auto-spread) branch (source lines 344-350): every argument must be a string,
a number or an `ee.ComputedObject`; the first offending element is thrown.
-/
def checkSelectors : List JSVal → Except JSError Unit
  | [] => .ok ()
  | x :: xs =>
      if isString x || isNumber x || isComputedObject x then checkSelectors xs
      else .error (JSError.illegalSelectArg x)

/--
`ee.Image.prototype.select(opt_selectors, opt_names)` applied to its
`arguments` array (source lines 330-356).  An `undefined` first argument
defaults to the empty array; when the first argument is a string or a number
the whole `arguments` array becomes the selector list after validation;
otherwise the first argument is the selector list as-is and a truthy second
argument becomes the rename list.
-/
def select (self : JSVal) (arguments : List JSVal) : Except JSError JSVal :=
  let sel0 := arguments.headD JSVal.undef
  let opt_selectors := if isUndef sel0 then JSVal.arr [] else sel0
  if isString opt_selectors || isNumber opt_selectors then
    (checkSelectors arguments).map (fun _ =>
      mk_apply "Image.select"
        [("input", self), ("bandSelectors", JSVal.arr arguments)])
  else
    let opt_names := (arguments.drop 1).headD JSVal.undef
    if jsTruthy opt_names then
      .ok (mk_apply "Image.select"
        [("input", self), ("bandSelectors", opt_selectors),
         ("newNames", opt_names)])
    else
      .ok (mk_apply "Image.select"
        [("input", self), ("bandSelectors", opt_selectors)])

/--
`ee.Image.combine_(images, opt_names)` (source lines 296-313): throw on an
empty list, wrap `images[0]` through the full constructor, left-fold
`Image.addBands` over the remaining raw elements, then rename through
`select(['.*'], opt_names)` when a truthy rename list was supplied
(`opt_names = none` embeds the absent / `null` argument).
-/
def combine_ (images : List JSVal) (opt_names : Option JSVal) :
    Except JSError JSVal :=
  match images with
  | [] => .error JSError.cantCombineZero
  | first :: rest =>
      (eeImage1 first).bind (fun r0 =>
        let result := rest.foldl addBandsCall r0
        match opt_names with
        | some names =>
            if jsTruthy names then
              select result [JSVal.arr [JSVal.str ".*"], names]
            else .ok result
        | none => .ok result)

/-- `ee.Image.rgb(r, g, b)` (source lines 269-271). -/
def rgb (r g b : JSVal) : Except JSError JSVal :=
  combine_ [r, g, b]
    (some (JSVal.arr [JSVal.str "vis-red", JSVal.str "vis-green", JSVal.str "vis-blue"]))

/-- `ee.Image.cat(var_args)` (source lines 281-284): combine with a `null`
rename list. -/
def cat (args : List JSVal) : Except JSError JSVal :=
  combine_ args none

/--
`ee.Image.prototype.clip(geometry)` (source lines 421-431).  The
`new ee.Geometry(geometry)` coercion is outside this module (`ee.Geometry` is
an external collaborator), so it is a parameter: any fallible coercion
function.  The `try { ... } catch (e) { }` is the `match`: a throwing coercion
leaves the original argument in place, and the method itself never throws.
-/
def clip (coerce : JSVal → Except JSError JSVal) (self g : JSVal) : JSVal :=
  let geometry := match coerce g with
    | .ok g2 => g2
    | .error _ => g
  mk_call "Image.clip" [self, geometry]

/-- One parameter of a hand-generated `ee.Function.Signature`
(source lines 398-402). -/
structure SigArg where
  name : String
  type : String
  optional : Bool
deriving Repr, DecidableEq

/-- A hand-generated `ee.Function.Signature` (source lines 394-406). -/
structure FnSignature where
  name : String
  args : List SigArg
  returns : String
deriving Repr, DecidableEq

/--
The observable outcome of `ee.Image.prototype.expression`: the resulting
image is `func.apply(args)` where `func` is the hand-built `ee.Function`
whose `encode` forwards to `body` and whose `getSignature` returns
`signature`; `callArgs` is the argument dictionary the function is applied to
(source lines 368-410).
-/
structure ExprResult where
  body : JSVal
  signature : FnSignature
  callArgs : List (String × JSVal)
deriving Repr

/-- JavaScript object property assignment `obj[k] = v`: replace the value at
an existing key in place, otherwise append the new key. -/
def objSet : List (String × JSVal) → String → JSVal → List (String × JSVal)
  | [], k, v => [(k, v)]
  | p :: ps, k, v => if p.1 = k then (k, v) :: ps else p :: objSet ps k v

/-- JavaScript object property read `obj[k]`. -/
def objGet : List (String × JSVal) → String → Option JSVal
  | [], _ => none
  | p :: ps, k => if p.1 = k then some p.2 else objGet ps k

/--
The `for (var name in opt_map)` loop of `expression` (source lines 374-379):
push each variable name onto `vars` and bind `args[name]` to
`new ee.Image(opt_map[name])`, in iteration order.
-/
def exprLoop : List (String × JSVal) → List String → List (String × JSVal) →
    Except JSError (List String × List (String × JSVal))
  | [], vars, args => .ok (vars, args)
  | p :: rest, vars, args =>
      (eeImage1 p.2).bind (fun img =>
        exprLoop rest (vars ++ [p.1]) (objSet args p.1 img))

/-- The reserved variable name binding the receiver image
(source line 369). -/
def defaultExpressionImage : String := "DEFAULT_EXPRESSION_IMAGE"

/--
`ee.Image.prototype.expression(expression, opt_map)` (source lines 368-410):
run the variable loop seeded with the reserved name bound to the receiver,
build the `Image.parseExpression(expression, argName, vars)` call node, and
hand-generate a signature with one Image-typed non-optional parameter per
variable name and return type Image.
-/
def expressionMethod (self : JSVal) (e : String)
    (opt_map : Option (List (String × JSVal))) : Except JSError ExprResult :=
  (exprLoop (opt_map.getD []) [defaultExpressionImage]
      [(defaultExpressionImage, self)]).map
    (fun vp =>
      { body := mk_call "Image.parseExpression"
          [JSVal.str e, JSVal.str defaultExpressionImage,
           JSVal.arr (vp.1.map JSVal.str)]
        signature :=
          { name := ""
            args := vp.1.map (fun n =>
              { name := n, type := "Image", optional := false })
            returns := "Image" }
        callArgs := vp.2 })

/-- One entry of the external Signature Registry: the namespace an operation
belongs to and its operation name. -/
structure RegistryOp where
  namespaceName : String
  opName : String
deriving Repr, DecidableEq

/--
Modelled from the spec: `ee.ApiFunction.importApi(target, namespace, type,
opt_prefix)` is not under `src/`; §4.2 of the spec says the binder installs,
for every Signature in the registry whose namespace matches, a member named
after the operation with the optional prefix prepended.  This function
computes that installed member-name list.
-/
def importedMembers (registry : List RegistryOp) (ns prefixStr : String) :
    List String :=
  registry.filterMap (fun op =>
    if op.namespaceName = ns then some (prefixStr ++ op.opName) else none)

/-- The two `importApi` calls of `ee.Image.initialize` (source lines 115-116):
namespace `Image` with no prefix and namespace `Window` with prefix
`focal_`. -/
def installedMembers (registry : List RegistryOp) : List String :=
  importedMembers registry "Image" "" ++ importedMembers registry "Window" "focal_"

/-- The process-wide binder state: the `ee.Image.initialized_` flag
(source line 107) and the set of members installed on the class. -/
structure BinderState where
  initialized : Bool
  members : List String
deriving Repr, DecidableEq

/-- `ee.Image.initialize()` (source lines 113-119): when the flag is unset,
install the registry members and set the flag; otherwise do nothing. -/
def bindApi (registry : List RegistryOp) (s : BinderState) : BinderState :=
  if s.initialized then s
  else { initialized := true, members := installedMembers registry }

/-- `ee.Image.reset()` (source lines 125-128): remove all installed members
(`ee.ApiFunction.clearApi`, modelled from the spec as clearing the installed
member set) and clear the flag. -/
def resetApi (_s : BinderState) : BinderState :=
  { initialized := false, members := [] }

/-!  ## Theorems -/

/--
C1: for every value that is already an Image, the constructor returns the
very same object, never a new wrapper around it.  In the source this is the
`return opt_args` on line 42, which returns the argument reference itself;
in the embedding the constructor returns its argument unchanged.
-/
theorem image_ctor_identity (f : Option String)
    (a : List (Option String × JSVal)) (vn : Option String) :
    eeImage [JSVal.node "Image" f a vn] = .ok (JSVal.node "Image" f a vn) := rfl

/--
C2: the constructor maps literal arguments to fixed call nodes —
`Image(n)` to `Image.constant(value=n)`, `Image(s)` to `Image.load(id=s)`,
`Image(s, v)` to `Image.load(id=s, version=v)`, and `Image()` to
`Image.mask(image=Image.constant(0), mask=Image.constant(0))`.
-/
theorem image_ctor_literals :
    (∀ n : Int, eeImage [JSVal.num n] =
      .ok (JSVal.node "Image" (some "Image.constant")
            [(some "value", JSVal.num n)] none)) ∧
    (∀ s : String, eeImage [JSVal.str s] =
      .ok (JSVal.node "Image" (some "Image.load")
            [(some "id", JSVal.str s)] none)) ∧
    (∀ s : String, ∀ v : Int, eeImage [JSVal.str s, JSVal.num v] =
      .ok (JSVal.node "Image" (some "Image.load")
            [(some "id", JSVal.str s), (some "version", JSVal.num v)] none)) ∧
    eeImage [] =
      .ok (JSVal.node "Image" (some "Image.mask")
            [(some "image", constImage 0), (some "mask", constImage 0)] none) :=
  ⟨fun _ => rfl, fun _ => rfl, fun _ _ => rfl, rfl⟩

/--
C8: combining an empty sequence of images fails synchronously, for every
(possibly absent) rename list, producing no graph node.
-/
theorem combine_empty_fails (opt_names : Option JSVal) :
    combine_ [] opt_names = .error JSError.cantCombineZero := rfl

/--
C10: calling the constructor with the single argument `undefined` does not
fail: it is treated like the zero-argument form and yields the transparent
image `Image.mask(image=Image.constant(0), mask=Image.constant(0))`.
-/
theorem image_ctor_undefined :
    eeImage [JSVal.undef] = eeImage [] ∧
    eeImage [JSVal.undef] = .ok emptyImage :=
  ⟨rfl, rfl⟩

/--
C7: `clip(g)` never raises, for any coercion behaviour and any argument:
it always emits the call node `Image.clip(self, geometry)`, and when the
geometry coercion throws, the original argument is embedded unchanged.
-/
theorem clip_never_throws (coerce : JSVal → Except JSError JSVal)
    (self g : JSVal) :
    (∀ e, coerce g = .error e →
      clip coerce self g = mk_call "Image.clip" [self, g]) ∧
    (∀ g2, coerce g = .ok g2 →
      clip coerce self g = mk_call "Image.clip" [self, g2]) := by
  constructor
  · intro e he
    simp [clip, he]
  · intro g2 hg
    simp [clip, hg]

/-- Witness for C7 at a concrete always-throwing coercion and a concrete
opaque argument. -/
theorem clip_never_throws_witness :
    clip (fun _ => .error JSError.cantCombineZero) (loadImage "a")
        (JSVal.plainObj "x") =
      mk_call "Image.clip" [loadImage "a", JSVal.plainObj "x"] :=
  (clip_never_throws (fun _ => .error JSError.cantCombineZero)
    (loadImage "a") (JSVal.plainObj "x")).1 JSError.cantCombineZero rfl

/--
C9: a second `initialize` without an intervening `reset` is a no-op on the
binder state, whatever registry it is offered; `reset` clears the flag and
removes the installed members; and an `initialize` after a `reset` reinstalls
the members from the registry's current state.
-/
theorem bind_idempotent_reset_rebinds (reg reg2 : List RegistryOp)
    (s : BinderState) :
    bindApi reg (bindApi reg2 s) = bindApi reg2 s ∧
    resetApi s = { initialized := false, members := [] } ∧
    bindApi reg (resetApi s) =
      { initialized := true, members := installedMembers reg } := by
  refine ⟨?_, rfl, rfl⟩
  by_cases h : s.initialized <;> simp [bindApi, h]

/--
C6 counterexample: the claim says `select([1, badObject])` fails with an
error naming the offending element, but the code validates elements only in
the variadic (auto-spread) branch; an explicit sequence argument is passed
through unvalidated, so the call succeeds.
-/
theorem select_sequence_not_validated :
    select (loadImage "a") [JSVal.arr [JSVal.num 1, JSVal.plainObj "bad"]] =
      .ok (mk_apply "Image.select"
        [("input", loadImage "a"),
         ("bandSelectors", JSVal.arr [JSVal.num 1, JSVal.plainObj "bad"])]) := rfl

/-- The validation loop accepts a list whose elements are all strings,
numbers or computed objects. -/
theorem checkSelectors_ok_of_valid (l : List JSVal)
    (h : ∀ x ∈ l, (isString x || isNumber x || isComputedObject x) = true) :
    checkSelectors l = .ok () := by
  induction l with
  | nil => rfl
  | cons x xs ih =>
    have hx := h x (List.mem_cons_self x xs)
    simp only [checkSelectors, hx, if_true]
    exact ih (fun y hy => h y (List.mem_cons_of_mem _ hy))

/-- The validation loop throws on the first offending element. -/
theorem checkSelectors_first_bad (pre : List JSVal) (bad : JSVal)
    (rest : List JSVal)
    (hpre : ∀ x ∈ pre, (isString x || isNumber x || isComputedObject x) = true)
    (hbad : (isString bad || isNumber bad || isComputedObject bad) = false) :
    checkSelectors (pre ++ bad :: rest) =
      .error (JSError.illegalSelectArg bad) := by
  induction pre with
  | nil => simp [checkSelectors, hbad]
  | cons x xs ih =>
    have hx := hpre x (List.mem_cons_self x xs)
    simp only [List.cons_append, checkSelectors, hx, if_true]
    exact ih (fun y hy => hpre y (List.mem_cons_of_mem _ hy))

/--
C5: when every positional argument to `select` is a string or a number, the
variadic call produces the same call node as the call with the explicit
selector list.
-/
theorem select_autospread (self : JSVal) (l : List JSVal)
    (h : ∀ x ∈ l, isString x = true ∨ isNumber x = true) :
    select self l = select self [JSVal.arr l] := by
  cases l with
  | nil => rfl
  | cons s rest =>
    have hs := h s (List.mem_cons_self s rest)
    have hsel : checkSelectors rest = .ok () := by
      refine checkSelectors_ok_of_valid _ (fun x hx => ?_)
      rcases h x (List.mem_cons_of_mem _ hx) with h1 | h1 <;> simp [h1]
    cases s with
    | undef => simp [isString, isNumber] at hs
    | num n => simp [select, hsel, isUndef, isString, isNumber, jsTruthy, checkSelectors, Except.map]
    | str t => simp [select, hsel, isUndef, isString, isNumber, jsTruthy, checkSelectors, Except.map]
    | arr xs => simp [isString, isNumber] at hs
    | node nm f a vn => simp [isString, isNumber] at hs
    | plainObj t => simp [isString, isNumber] at hs

/-- Witness for C5: `select("B1", "B2")` equals `select(["B1", "B2"])`. -/
theorem select_autospread_witness :
    select (loadImage "a") [JSVal.str "B1", JSVal.str "B2"] =
      select (loadImage "a") [JSVal.arr [JSVal.str "B1", JSVal.str "B2"]] :=
  select_autospread (loadImage "a") [JSVal.str "B1", JSVal.str "B2"]
    (by decide)

/--
C6 amended: element validation happens only on the variadic (auto-spread)
path of `select` — when the first argument is a string or a number, any
positional argument that is neither a string, a number, nor a computed
object makes the call throw synchronously, naming the first offending
element.  (An explicit sequence argument is passed through unvalidated, see
`select_sequence_not_validated`.)
-/
theorem select_variadic_validates (self s bad : JSVal) (pre rest : List JSVal)
    (h1 : (isString s || isNumber s) = true)
    (h2 : ∀ x ∈ pre, (isString x || isNumber x || isComputedObject x) = true)
    (h3 : (isString bad || isNumber bad || isComputedObject bad) = false) :
    select self (s :: (pre ++ bad :: rest)) =
      .error (JSError.illegalSelectArg bad) := by
  have hu : isUndef s = false := by
    cases s <;> simp_all [isString, isNumber, isUndef]
  have hck : checkSelectors (s :: (pre ++ bad :: rest)) =
      .error (JSError.illegalSelectArg bad) := by
    have hl : s :: (pre ++ bad :: rest) = (s :: pre) ++ bad :: rest := by simp
    rw [hl]
    refine checkSelectors_first_bad (s :: pre) bad rest (fun x hx => ?_) h3
    rcases List.mem_cons.mp hx with h | h
    · subst h
      rw [h1]
      simp
    · exact h2 x h
  simp only [select, List.headD_cons, hu, Bool.false_eq_true, if_false, h1,
    if_true, hck]
  rfl

/-- Witness for the amended C6: `select(1, badObject)` throws, naming the
bad object. -/
theorem select_variadic_validates_witness :
    select (loadImage "a") [JSVal.num 1, JSVal.plainObj "bad"] =
      .error (JSError.illegalSelectArg (JSVal.plainObj "bad")) :=
  select_variadic_validates (loadImage "a") (JSVal.num 1)
    (JSVal.plainObj "bad") [] [] rfl
    (by intro x hx; cases hx) rfl

/-- Every success of the non-array constructor branches is an Image-typed
node. -/
theorem eeImageBase_ok_image {v w : JSVal} (h : eeImageBase v = .ok w) :
    isImageNode w = true := by
  unfold eeImageBase at h
  by_cases hv : isImageNode v = true
  · rw [if_pos hv] at h
    cases h
    exact hv
  · rw [if_neg hv] at h
    cases v with
    | undef => cases h; rfl
    | num n => cases h; rfl
    | str s => cases h; rfl
    | arr xs => cases h
    | plainObj t => cases h
    | node nm f a vn =>
      dsimp only at h
      by_cases ha : nm = "Array"
      · rw [if_pos ha] at h
        cases h
        rfl
      · rw [if_neg ha] at h
        cases h
        rfl

/-- An already-Image value passes through the constructor unchanged. -/
theorem eeImageBase_of_image {v : JSVal} (h : isImageNode v = true) :
    eeImageBase v = .ok v := by
  unfold eeImageBase
  rw [if_pos h]

/-- An already-Image value passes through the single-argument constructor
unchanged. -/
theorem eeImage1_of_image {v : JSVal} (h : isImageNode v = true) :
    eeImage1 v = .ok v := by
  cases v with
  | arr xs => simp [isImageNode] at h
  | undef => simp [isImageNode] at h
  | num n => simp [isImageNode] at h
  | str s => simp [isImageNode] at h
  | plainObj t => simp [isImageNode] at h
  | node nm f a vn =>
    show eeImageBase (JSVal.node nm f a vn) = .ok (JSVal.node nm f a vn)
    exact eeImageBase_of_image h

/-- The addBands left-fold of the Combine algorithm produces an Image-typed
node from an Image-typed seed. -/
theorem foldl_addBands_image (rest : List JSVal) (r0 : JSVal)
    (h : isImageNode r0 = true) :
    isImageNode (rest.foldl addBandsCall r0) = true := by
  induction rest generalizing r0 with
  | nil => exact h
  | cons x xs ih =>
    exact ih (addBandsCall r0 x) rfl

/-- Every element produced by wrapping a list through the constructor is an
Image-typed node. -/
theorem eeImageList_ok_image {xs : List JSVal} {imgs : List JSVal}
    (h : eeImageList xs = .ok imgs) : ∀ i ∈ imgs, isImageNode i = true := by
  induction xs generalizing imgs with
  | nil =>
    simp only [eeImageList] at h
    cases h
    intro i hi
    cases hi
  | cons x xs ih =>
    simp only [eeImageList] at h
    cases hx : eeImage1 x with
    | error e => rw [hx] at h; cases h
    | ok i0 =>
      rw [hx] at h
      cases hxs : eeImageList xs with
      | error e => rw [hxs] at h; cases h
      | ok rest =>
        rw [hxs] at h
        cases h
        intro i hi
        rcases List.mem_cons.mp hi with rfl | hi
        · cases x with
          | arr ys =>
            simp only [eeImage1] at hx
            cases hys : eeImageList ys with
            | error e => rw [hys] at hx; cases hx
            | ok imgs0 =>
              rw [hys] at hx
              cases imgs0 with
              | nil => cases hx
              | cons f0 r0 =>
                simp only [Except.bind, combineCore] at hx
                cases hf : eeImageBase f0 with
                | error e => rw [hf] at hx; cases hx
                | ok w0 =>
                  rw [hf] at hx
                  cases hx
                  exact foldl_addBands_image _ _ (eeImageBase_ok_image hf)
          | undef => exact eeImageBase_ok_image hx
          | num n => exact eeImageBase_ok_image hx
          | str s => exact eeImageBase_ok_image hx
          | node nm f a vn => exact eeImageBase_ok_image hx
          | plainObj t => exact eeImageBase_ok_image hx
        · exact ih hxs i hi

/--
C3: for a list argument, the constructor equals the Combine algorithm applied
to the elementwise-wrapped images with no rename list, which in turn is the
left-to-right fold of `Image.addBands` seeded with the first wrapped image —
the sequential application order is preserved in the resulting graph.
-/
theorem image_list_combine (l : List JSVal) :
    eeImage [JSVal.arr l] =
      (eeImageList l).bind (fun imgs => combine_ imgs none) ∧
    ∀ first rest, eeImageList l = Except.ok (first :: rest) →
      eeImage [JSVal.arr l] = Except.ok (rest.foldl addBandsCall first) := by
  have h0 : eeImage [JSVal.arr l] = (eeImageList l).bind combineCore := rfl
  constructor
  · rw [h0]
    cases hl : eeImageList l with
    | error e => rfl
    | ok imgs =>
      show combineCore imgs = combine_ imgs none
      cases imgs with
      | nil => rfl
      | cons first rest =>
        have himg : isImageNode first = true :=
          eeImageList_ok_image hl first (List.mem_cons_self _ _)
        simp only [combineCore, combine_, eeImageBase_of_image himg,
          eeImage1_of_image himg]
        rfl
  · intro first rest hl
    rw [h0, hl]
    have himg : isImageNode first = true :=
      eeImageList_ok_image hl first (List.mem_cons_self _ _)
    show combineCore (first :: rest) = _
    simp only [combineCore, eeImageBase_of_image himg]
    rfl

/-- Witness for C3: `Image([1, 2])` is
`Image.addBands(Image.constant(1), Image.constant(2))`. -/
theorem image_list_combine_witness :
    eeImage [JSVal.arr [JSVal.num 1, JSVal.num 2]] =
      Except.ok (addBandsCall (constImage 1) (constImage 2)) := by
  have h := (image_list_combine [JSVal.num 1, JSVal.num 2]).2
    (constImage 1) [constImage 2] rfl
  simpa using h

/-- Reading back a key just assigned into a JS object returns the assigned
value. -/
theorem objGet_objSet_self (l : List (String × JSVal)) (k : String) (v : JSVal) :
    objGet (objSet l k v) k = some v := by
  induction l with
  | nil => simp [objSet, objGet]
  | cons p ps ih =>
    obtain ⟨a, b⟩ := p
    by_cases h : a = k
    · simp [objSet, h, objGet]
    · simp [objSet, h, objGet, ih]

/-- Assigning one key of a JS object leaves every other key unchanged. -/
theorem objGet_objSet_ne (l : List (String × JSVal)) (k : String) (v : JSVal)
    (q : String) (h : q ≠ k) : objGet (objSet l k v) q = objGet l q := by
  induction l with
  | nil => simp [objSet, objGet, Ne.symm h]
  | cons p ps ih =>
    obtain ⟨a, b⟩ := p
    by_cases ha : a = k
    · subst ha
      simp [objSet, objGet, Ne.symm h]
    · simp [objSet, ha, objGet, ih]

/--
Invariant of the `expression` variable loop: when every map value promotes to
an Image, the loop succeeds; it appends the map's keys to the accumulated
variable list in iteration order, leaves keys outside the map untouched in the
argument object, and binds each map key to the promoted image of its value.
-/
theorem exprLoop_spec (m : List (String × JSVal)) :
    ∀ (vars : List String) (args : List (String × JSVal)),
    (∀ p ∈ m, ∃ i, eeImage1 p.2 = .ok i) →
    ∃ out, exprLoop m vars args = .ok out ∧
      out.1 = vars ++ m.map Prod.fst ∧
      (∀ k, k ∉ m.map Prod.fst → objGet out.2 k = objGet args k) ∧
      ((m.map Prod.fst).Nodup →
        ∀ p ∈ m, ∀ i, eeImage1 p.2 = .ok i → objGet out.2 p.1 = some i) := by
  induction m with
  | nil =>
    intro vars args _
    exact ⟨(vars, args), rfl, by simp, fun k _ => rfl,
      fun _ p hp => absurd hp (List.not_mem_nil p)⟩
  | cons q rest ih =>
    intro vars args hprom
    obtain ⟨n, v⟩ := q
    obtain ⟨i, hi⟩ := hprom (n, v) (List.mem_cons_self _ _)
    have hrest : ∀ p ∈ rest, ∃ j, eeImage1 p.2 = .ok j :=
      fun p hp => hprom p (List.mem_cons_of_mem _ hp)
    obtain ⟨out, hout, h1, h2, h3⟩ := ih (vars ++ [n]) (objSet args n i) hrest
    refine ⟨out, ?_, ?_, ?_, ?_⟩
    · show exprLoop ((n, v) :: rest) vars args = .ok out
      simp only [exprLoop, hi]
      exact hout
    · rw [h1]
      simp
    · intro k hk
      have hkn : k ≠ n := fun he => hk (by simp [he])
      have hkrest : k ∉ rest.map Prod.fst := fun hh => hk (by simp [hh])
      rw [h2 k hkrest, objGet_objSet_ne _ _ _ _ hkn]
    · intro hnd p hp j hj
      rw [List.map_cons] at hnd
      have hnd2 := List.nodup_cons.mp hnd
      rcases List.mem_cons.mp hp with rfl | hp2
      · have hji : j = i := by
          rw [hi] at hj
          cases hj
          rfl
        subst hji
        rw [h2 n hnd2.1, objGet_objSet_self]
      · exact h3 hnd2.2 p hp2 j hj

/--
C4: `expression(e, m)` builds a call to
`Image.parseExpression(e, defaultName, [defaultName] ++ keys(m))` and
synthesizes a signature of arity `1 + |m|` whose parameters are all declared
type Image and non-optional, with return type Image; the argument mapping
binds the reserved default name (distinct from every user-chosen name) to the
receiver image and each user name to the promoted `Image(m[name])`.
-/
theorem expression_builds_call (self : JSVal) (e : String)
    (m : List (String × JSVal))
    (hnd : (m.map Prod.fst).Nodup)
    (hdef : defaultExpressionImage ∉ m.map Prod.fst)
    (hprom : ∀ p ∈ m, ∃ i, eeImage1 p.2 = .ok i) :
    ∃ r, expressionMethod self e (some m) = .ok r ∧
      r.body = mk_call "Image.parseExpression"
        [JSVal.str e, JSVal.str defaultExpressionImage,
         JSVal.arr ((defaultExpressionImage :: m.map Prod.fst).map JSVal.str)] ∧
      r.signature.args.length = 1 + m.length ∧
      (∀ a ∈ r.signature.args, a.type = "Image" ∧ a.optional = false) ∧
      r.signature.returns = "Image" ∧
      objGet r.callArgs defaultExpressionImage = some self ∧
      (∀ p ∈ m, ∀ i, eeImage1 p.2 = .ok i →
        objGet r.callArgs p.1 = some i) := by
  obtain ⟨out, hout, h1, h2, h3⟩ := exprLoop_spec m [defaultExpressionImage]
    [(defaultExpressionImage, self)] hprom
  refine ⟨{ body := mk_call "Image.parseExpression"
              [JSVal.str e, JSVal.str defaultExpressionImage,
               JSVal.arr (out.1.map JSVal.str)]
            signature :=
              { name := ""
                args := out.1.map (fun n =>
                  { name := n, type := "Image", optional := false })
                returns := "Image" }
            callArgs := out.2 }, ?_, ?_, ?_, ?_, ?_, ?_, ?_⟩
  · unfold expressionMethod
    rw [show (some m).getD ([] : List (String × JSVal)) = m from rfl, hout]
    rfl
  · show mk_call "Image.parseExpression"
      [JSVal.str e, JSVal.str defaultExpressionImage,
       JSVal.arr (out.1.map JSVal.str)] = _
    rw [h1]
    rfl
  · show (out.1.map _).length = 1 + m.length
    simp [h1, Nat.add_comm]
  · intro a ha
    simp only [List.mem_map] at ha
    obtain ⟨n, _, rfl⟩ := ha
    exact ⟨rfl, rfl⟩
  · rfl
  · show objGet out.2 defaultExpressionImage = some self
    rw [h2 defaultExpressionImage hdef]
    simp [objGet]
  · intro p hp i hi
    exact h3 hnd p hp i hi

/-- Witness for C4 at the spec's example: `expression("b1+b2", {b2: other})`
for a concrete other image. -/
theorem expression_builds_call_witness :
    ∃ r, expressionMethod (loadImage "a") "b1+b2"
        (some [("b2", loadImage "other")]) = .ok r ∧
      r.body = mk_call "Image.parseExpression"
        [JSVal.str "b1+b2", JSVal.str defaultExpressionImage,
         JSVal.arr ((defaultExpressionImage :: ["b2"]).map JSVal.str)] ∧
      r.signature.args.length = 1 + 1 ∧
      (∀ a ∈ r.signature.args, a.type = "Image" ∧ a.optional = false) ∧
      r.signature.returns = "Image" ∧
      objGet r.callArgs defaultExpressionImage = some (loadImage "a") ∧
      (∀ p ∈ [("b2", loadImage "other")], ∀ i, eeImage1 p.2 = .ok i →
        objGet r.callArgs p.1 = some i) :=
  expression_builds_call (loadImage "a") "b1+b2" [("b2", loadImage "other")]
    (by decide) (by decide)
    (by intro p hp
        simp only [List.mem_singleton] at hp
        subst hp
        exact ⟨loadImage "other", rfl⟩)
